import Mathlib

/-!
Shallow embedding of the animation blending state machine from
src/src/animation/machine.rs.

Conventions of the embedding:
* `f32` values (times, weights, blend factors) are modelled as exact
  rationals `ℚ`; `f32::EPSILON` becomes `f32Eps = 1 / 2 ^ 23`.
* Generational pool handles (`Handle<T>`) are modelled as `Nat`:
  `0` is `Handle::NONE` and the n-th spawned entry gets handle `n`.
  The machine has no deletion API, so spawn order equals index order
  and generations can be dropped without loss.
* A pool (`Pool<T>`) is a `List` indexed by `handle - 1`.
* `HashMap<String, Parameter>` is modelled as `String → Option Parameter`.
* The per-frame entry point `Machine::evaluate_pose` returns `&AnimationPose`
  borrowed from the mutated machine; here it returns the whole updated
  `Machine`, whose `final_pose` field is the returned pose.
-/

/-- Modelled from the spec: `AnimationPose` and its `reset`, `blend_with` and
`clone_into` operations live outside this unit (spec section 6 calls the pose
an opaque external accumulator with `reset` clearing to the neutral value and
`blend_with(other, weight)` folding `other` scaled by `weight` into the
accumulator, order-sensitively; spec Scenario D states that a fold with weight
zero leaves the accumulator at its neutral state). A pose is modelled as the
ordered list of `(animation, coefficient)` contributions folded into the
accumulator; a fold with weight `0` is the neutral fold. -/
abbrev AnimationPose : Type := List (Nat × ℚ)

def AnimationPose.reset : AnimationPose := []

def AnimationPose.blend_with (self other : AnimationPose) (weight : ℚ) :
    AnimationPose :=
  if weight = 0 then self
  else self ++ other.map (fun c => (c.1, weight * c.2))

/-- Modelled from the spec: the animation container and clip sampler are
external (spec section 6: given an animation handle, return its current pose).
We model the container as a function from animation handle to pose. -/
abbrev AnimationContainer : Type := Nat → AnimationPose

/-- The f32 machine epsilon used by `Transition::is_done`. -/
def f32Eps : ℚ := 1 / 2 ^ 23

/-- Rust enum `Parameter` from machine.rs. -/
inductive Parameter : Type where
  | Weight (value : ℚ)
  | Rule (value : Bool)
deriving DecidableEq, Repr

/-- Rust enum `PoseWeight` from machine.rs. -/
inductive PoseWeight : Type where
  | Constant (value : ℚ)
  | Parameter (param_id : String)
deriving DecidableEq, Repr

/-- Rust struct `BlendPose`: one weighted input of a combiner node. -/
structure BlendPose : Type where
  weight : PoseWeight
  pose_source : Nat
deriving DecidableEq, Repr

/-- Rust enum `PoseNode`: `PlayAnimation` holds the animation handle,
`BlendAnimations` holds the list of weighted inputs. The interior
`output_pose : RefCell<AnimationPose>` scratch buffers are omitted: they only
cache the value that `eval_pose` returns. -/
inductive PoseNode : Type where
  | PlayAnimation (animation : Nat)
  | BlendAnimations (pose_sources : List BlendPose)
deriving DecidableEq, Repr

instance : Inhabited PoseNode := ⟨PoseNode.PlayAnimation 0⟩

/-- Rust struct `State` from machine.rs. -/
structure State : Type where
  name : String
  root : Nat
  pose : AnimationPose
deriving DecidableEq, Repr

instance : Inhabited State := ⟨⟨"", 0, AnimationPose.reset⟩⟩

def State.new (name : String) (root : Nat) : State :=
  { name := name, root := root, pose := AnimationPose.reset }

/-- Rust struct `Transition` from machine.rs. -/
structure Transition : Type where
  name : String
  transition_time : ℚ
  elapsed_time : ℚ
  source : Nat
  dest : Nat
  rule : String
  blend_factor : ℚ
deriving DecidableEq, Repr

instance : Inhabited Transition := ⟨⟨"", 0, 0, 0, 0, "", 0⟩⟩

def Transition.new (name : String) (src dest : Nat) (time : ℚ)
    (rule : String) : Transition :=
  { name := name, transition_time := time, elapsed_time := 0,
    source := src, dest := dest, rule := rule, blend_factor := 0 }

/-- Rust `Transition::reset`. -/
def Transition.reset (t : Transition) : Transition :=
  { t with elapsed_time := 0, blend_factor := 0 }

/-- Rust `Transition::update`: advance elapsed time, clamp to the transition
time, recompute the blend factor. -/
def Transition.update (t : Transition) (dt : ℚ) : Transition :=
  let e := t.elapsed_time + dt
  let e := if e > t.transition_time then t.transition_time else e
  { t with elapsed_time := e, blend_factor := e / t.transition_time }

/-- Rust `Transition::is_done`: `(transition_time - elapsed_time).abs() <= EPSILON`. -/
def Transition.is_done (t : Transition) : Bool :=
  decide (|t.transition_time - t.elapsed_time| ≤ f32Eps)

/-- Rust enum `Event` from machine.rs. -/
inductive Event : Type where
  | StateEnter (state : Nat)
  | StateLeave (state : Nat)
  | ActiveStateChanged (state : Nat)
deriving DecidableEq, Repr

/-- Rust struct `LimitedEventQueue`. -/
structure LimitedEventQueue : Type where
  queue : List Event
  limit : Nat
deriving DecidableEq, Repr

/-- Rust `LimitedEventQueue::new` (the `with_capacity` allocation hint has no
observable effect). -/
def LimitedEventQueue.new (limit : Nat) : LimitedEventQueue :=
  { queue := [], limit := limit }

/-- The derived `Default` for `LimitedEventQueue`: empty queue,
`limit = u32::MAX = 2 ^ 32 - 1`. -/
def LimitedEventQueue.rustDefault : LimitedEventQueue :=
  { queue := [], limit := 2 ^ 32 - 1 }

/-- Rust `LimitedEventQueue::push`: append when strictly below the limit,
silently drop otherwise. -/
def LimitedEventQueue.push (q : LimitedEventQueue) (event : Event) :
    LimitedEventQueue :=
  if q.queue.length < q.limit then { q with queue := q.queue ++ [event] }
  else q

/-- Rust `LimitedEventQueue::pop`: remove and return the oldest event. -/
def LimitedEventQueue.pop (q : LimitedEventQueue) :
    Option Event × LimitedEventQueue :=
  (q.queue.head?, { q with queue := q.queue.tail })

abbrev ParameterContainer : Type := String → Option Parameter

/-- Pool indexing `pool[handle]` (handle `h` is the `h - 1`-th spawned entry;
indexing with an invalid handle is a precondition violation in the source and
yields the default element here). -/
def getH {α : Type} [Inhabited α] (l : List α) (h : Nat) : α :=
  l.getD (h - 1) default

/-- Pool in-place mutation of the entry at a handle. -/
def setH {α : Type} (l : List α) (h : Nat) (x : α) : List α :=
  l.set (h - 1) x

/-- Weight resolution performed inside `BlendAnimation::eval_pose`: a constant
is used as-is; a parameter reference resolves to the table value when the key
maps to `Parameter::Weight`, and to `0.0` when the key is missing or maps to a
different variant. -/
def resolveWeight (params : ParameterContainer) : PoseWeight → ℚ
  | PoseWeight.Constant value => value
  | PoseWeight.Parameter param_id =>
    match params param_id with
    | some (Parameter.Weight weight) => weight
    | some (Parameter.Rule _) => 0
    | none => 0

/-- Recursive pose-graph evaluation (`EvaluatePose::eval_pose`).
`PlayAnimation` returns the animation container pose for its handle;
`BlendAnimations` resets its output accumulator and folds every blend pose in
list order with its resolved weight. The source recursion is unbounded (a
cyclic graph diverges, a stated precondition violation); fuel bounds it here,
and any fuel above the node count is enough for an acyclic graph. -/
def evalNode (animations : AnimationContainer) :
    Nat → List PoseNode → ParameterContainer → Nat → AnimationPose
  | 0, _, _, _ => AnimationPose.reset
  | fuel + 1, nodes, params, h =>
    match getH nodes h with
    | PoseNode.PlayAnimation animation => animations animation
    | PoseNode.BlendAnimations pose_sources =>
      pose_sources.foldl
        (fun acc bp =>
          acc.blend_with (evalNode animations fuel nodes params bp.pose_source)
            (resolveWeight params bp.weight))
        AnimationPose.reset

/-- Rust struct `Machine` from machine.rs. -/
structure Machine : Type where
  nodes : List PoseNode
  states : List State
  transitions : List Transition
  final_pose : AnimationPose
  active_state : Nat
  entry_state : Nat
  active_transition : Nat
  parameters : ParameterContainer
  events : LimitedEventQueue
  debug : Bool

/-- Rust `Machine::new`: like the derived default but with an event queue
limited to 2048 entries. -/
def Machine.new : Machine :=
  { nodes := [], states := [], transitions := [],
    final_pose := AnimationPose.reset,
    active_state := 0, entry_state := 0, active_transition := 0,
    parameters := fun _ => none,
    events := LimitedEventQueue.new 2048, debug := false }

/-- The derived `Default` for `Machine` (`#[derive(Default)]`): every field
takes its own default, so the event queue gets limit `u32::MAX`. -/
def Machine.rustDefault : Machine :=
  { nodes := [], states := [], transitions := [],
    final_pose := AnimationPose.reset,
    active_state := 0, entry_state := 0, active_transition := 0,
    parameters := fun _ => none,
    events := LimitedEventQueue.rustDefault, debug := false }

/-- Rust `Machine::add_node`: spawn in the node pool, return the handle. -/
def Machine.add_node (m : Machine) (node : PoseNode) : Machine × Nat :=
  ({ m with nodes := m.nodes ++ [node] }, m.nodes.length + 1)

/-- Rust `Machine::add_state`: spawn in the state pool; the first added state
becomes the active state when none is set. -/
def Machine.add_state (m : Machine) (state : State) : Machine × Nat :=
  let h := m.states.length + 1
  ({ m with states := m.states ++ [state],
            active_state := if m.active_state = 0 then h else m.active_state },
   h)

/-- Rust `Machine::add_transition`. -/
def Machine.add_transition (m : Machine) (transition : Transition) : Machine :=
  { m with transitions := m.transitions ++ [transition] }

/-- Rust `Machine::set_parameter`: insert-or-overwrite. -/
def Machine.set_parameter (m : Machine) (id : String) (parameter : Parameter) :
    Machine :=
  { m with parameters := fun k => if k = id then some parameter else m.parameters k }

/-- Rust `Machine::set_entry_state`: sets both the active and entry state. -/
def Machine.set_entry_state (m : Machine) (entry_state : Nat) : Machine :=
  { m with active_state := entry_state, entry_state := entry_state }

/-- Rust `Machine::reset`: reset every transition, restore the entry state. -/
def Machine.reset (m : Machine) : Machine :=
  { m with transitions := m.transitions.map Transition.reset,
           active_state := m.entry_state }

/-- Rust `Machine::pop_event`. -/
def Machine.pop_event (m : Machine) : Option Event × Machine :=
  let r := m.events.pop
  (r.1, { m with events := r.2 })

/-- The state-refresh loop at the top of `Machine::evaluate_pose`
(`State::update` for every state in the pool: reset the cached pose, then
clone the evaluated root node pose into it). -/
def Machine.updateStates (m : Machine) (animations : AnimationContainer) :
    Machine :=
  { m with
    states := m.states.map (fun s =>
      { s with
        pose := evalNode animations (m.nodes.length + 1) m.nodes
          m.parameters s.root }) }

/-- The skip-and-rule test of the transition search loop: a transition is
acted on when it is not skipped (skipped when `dest == active_state` or
`source != active_state`) and its rule parameter is `Rule(true)`. -/
def eligible (active_state : Nat) (params : ParameterContainer)
    (t : Transition) : Bool :=
  if t.dest = active_state ∨ t.source ≠ active_state then false
  else
    match params t.rule with
    | some (Parameter.Rule active) => active
    | _ => false

/-- First eligible transition of the pool suffix `l`, whose head has handle
`h`; mirrors the `pair_iter_mut` scan with `break` at the first match. -/
def findEligibleFrom (active_state : Nat) (params : ParameterContainer) :
    Nat → List Transition → Option (Nat × Transition)
  | _, [] => none
  | h, t :: rest =>
    if eligible active_state params t then some (h, t)
    else findEligibleFrom active_state params (h + 1) rest

/-- First eligible transition of the machine, with its handle. -/
def Machine.findEligible (m : Machine) : Option (Nat × Transition) :=
  findEligibleFrom m.active_state m.parameters 1 m.transitions

/-- The transition-search block of `Machine::evaluate_pose` (run when no
transition is active): on the first eligible transition, push
`StateLeave(active_state)` then `StateEnter(transition.source)`, clear the
active state and record the active transition; otherwise leave the machine
unchanged. -/
def Machine.findTransitionStep (m : Machine) : Machine :=
  match m.findEligible with
  | none => m
  | some (h, t) =>
    { m with
      events := (m.events.push (Event.StateLeave m.active_state)).push
        (Event.StateEnter t.source),
      active_state := 0,
      active_transition := h }

/-- The transition search guarded by `if self.active_transition.is_none()`. -/
def Machine.searchIfIdle (m : Machine) : Machine :=
  if m.active_transition = 0 then m.findTransitionStep else m

/-- The progression block of `Machine::evaluate_pose`: with an active
transition, fold the source pose at weight `1 - blend_factor` and the dest
pose at weight `blend_factor` into the final pose, then advance the
transition; when it is done, reset it, clear the active transition, set the
active state to the destination and push `ActiveStateChanged`. With no active
transition, clone the active state pose into the final pose. -/
def Machine.progress (m : Machine) (dt : ℚ) : Machine :=
  if m.active_transition ≠ 0 then
    let tr := getH m.transitions m.active_transition
    let fp :=
      (m.final_pose.blend_with (getH m.states tr.source).pose
        (1 - tr.blend_factor)).blend_with (getH m.states tr.dest).pose
        tr.blend_factor
    let tr1 := tr.update dt
    if tr1.is_done then
      { m with final_pose := fp,
               transitions := setH m.transitions m.active_transition tr1.reset,
               active_transition := 0,
               active_state := tr1.dest,
               events := m.events.push (Event.ActiveStateChanged tr1.dest) }
    else
      { m with final_pose := fp,
               transitions := setH m.transitions m.active_transition tr1 }
  else
    { m with final_pose := (getH m.states m.active_state).pose }

/-- Rust `Machine::evaluate_pose`: reset the final pose; when there is an
active state or an active transition, refresh every state pose, search for a
transition when none is active, then run transition progression. -/
def Machine.evaluatePose (m : Machine) (animations : AnimationContainer)
    (dt : ℚ) : Machine :=
  let m0 := { m with final_pose := AnimationPose.reset }
  if m0.active_state ≠ 0 ∨ m0.active_transition ≠ 0 then
    ((m0.updateStates animations).searchIfIdle).progress dt
  else m0

/-! Concrete machines used by the scenario claims. -/

/-- Animation container giving animation `a` the single contribution `(a, 1)`. -/
def animsA : AnimationContainer := fun a => [(a, 1)]

/-- Scenario A machine: states Idle (handle 1, entry by first insertion) and
Walk (handle 2), one transition Idle to Walk with transition time 1 gated by
rule key "Go", and Rule("Go") set to true. -/
def machineA : Machine :=
  let p1 := Machine.new.add_node (PoseNode.PlayAnimation 10)
  let p2 := p1.1.add_state (State.new ("Idle") p1.2)
  let p3 := p2.1.add_node (PoseNode.PlayAnimation 20)
  let p4 := p3.1.add_state (State.new ("Walk") p3.2)
  let m4 := p4.1.add_transition (Transition.new ("Idle->Walk") p2.2 p4.2 1 ("Go"))
  m4.set_parameter ("Go") (Parameter.Rule true)

/-- Claim C1, counterexample: in Scenario A the first `evaluate_pose(dt=0.4)`
call does not return `0.6 * pose(Idle) + 0.4 * pose(Walk)`; the blend is
folded before `Transition::update` advances the timer, so the returned pose
uses the pre-update blend factor `0.0`. -/
theorem c1_counterexample :
    ¬ ((machineA.evaluatePose animsA (2/5)).final_pose =
       (AnimationPose.reset.blend_with (animsA 10) (6/10)).blend_with
         (animsA 20) (4/10)) := by
  with_unfolding_all decide

/-- Claim C1, amended: in Scenario A the first `evaluate_pose(dt=0.4)` call
activates the transition and leaves `blend_factor = 0.4`, but returns the
pose blended with the pre-update blend factor `0.0`, namely
`1.0 * pose(Idle) + 0.0 * pose(Walk)`; the second call `evaluate_pose(dt=0.6)`
returns `0.6 * pose(Idle) + 0.4 * pose(Walk)`, brings the elapsed time to the
transition time, completes the transition (resetting its timer), sets the
active state to Walk and queues an `ActiveStateChanged(Walk)` event. -/
theorem c1_amended :
    ((machineA.evaluatePose animsA (2/5)).active_transition = 1
      ∧ (getH (machineA.evaluatePose animsA (2/5)).transitions 1).blend_factor
          = 2/5
      ∧ (getH (machineA.evaluatePose animsA (2/5)).transitions 1).elapsed_time
          = 2/5
      ∧ (machineA.evaluatePose animsA (2/5)).final_pose =
          (AnimationPose.reset.blend_with (animsA 10) 1).blend_with
            (animsA 20) 0)
    ∧ (((machineA.evaluatePose animsA (2/5)).evaluatePose animsA (3/5)).final_pose
          = (AnimationPose.reset.blend_with (animsA 10) (6/10)).blend_with
              (animsA 20) (4/10)
      ∧ ((machineA.evaluatePose animsA (2/5)).evaluatePose animsA (3/5)).active_transition
          = 0
      ∧ ((machineA.evaluatePose animsA (2/5)).evaluatePose animsA (3/5)).active_state
          = 2
      ∧ ((machineA.evaluatePose animsA (2/5)).evaluatePose animsA (3/5)).events.queue
          = [Event.StateLeave 1, Event.StateEnter 1,
             Event.ActiveStateChanged 2]) := by
  with_unfolding_all decide

/-- Three distinct events for the Scenario C queue. -/
def eventsC : List Event :=
  [Event.StateEnter 1, Event.StateLeave 2, Event.ActiveStateChanged 3]

/-- The Scenario C queue: capacity 2, three events pushed. -/
def queueC : LimitedEventQueue :=
  ((LimitedEventQueue.new 2).push (Event.StateEnter 1)).push
    (Event.StateLeave 2) |>.push (Event.ActiveStateChanged 3)

/-- Claim C6: the event queue is a bounded FIFO. `push` appends exactly when
the current length is below the limit and silently leaves the queue unchanged
otherwise; `pop` removes and returns the oldest event, or `none` when empty.
With capacity 2, pushing three events keeps only the first two in push order:
the first two pops return them, the third and fourth pops return `none`. -/
theorem c6_bounded_fifo :
    (∀ (q : LimitedEventQueue) (e : Event),
      (q.push e).queue =
        if q.queue.length < q.limit then q.queue ++ [e] else q.queue)
    ∧ (∀ q : LimitedEventQueue, q.pop =
        (q.queue.head?, { q with queue := q.queue.tail }))
    ∧ (queueC.queue = [Event.StateEnter 1, Event.StateLeave 2]
      ∧ queueC.pop.1 = some (Event.StateEnter 1)
      ∧ queueC.pop.2.pop.1 = some (Event.StateLeave 2)
      ∧ queueC.pop.2.pop.2.pop.1 = none
      ∧ queueC.pop.2.pop.2.pop.2.pop.1 = none) := by
  refine ⟨fun q e => ?_, fun q => rfl, by decide⟩
  simp only [LimitedEventQueue.push]
  split <;> rfl

/-- Claim C10: `Machine::new` installs an event queue with limit 2048, while
the derived `Default` implementation gives the queue limit `u32::MAX =
2 ^ 32 - 1`; a push appends (is not dropped) exactly when fewer events than
the limit are pending, so for a defaulted machine nothing is dropped until
`2 ^ 32 - 1` events are pending. -/
theorem c10_default_queue_limit :
    Machine.new.events.limit = 2048
    ∧ Machine.rustDefault.events.limit = 2 ^ 32 - 1
    ∧ (∀ (q : LimitedEventQueue) (e : Event),
        (q.push e).queue = q.queue ++ [e] ↔ q.queue.length < q.limit) := by
  refine ⟨rfl, rfl, fun q e => ?_⟩
  simp only [LimitedEventQueue.push]
  split
  · next h => simp [h]
  · constructor
    · intro h
      have hl := congrArg List.length h
      simp at hl
    · intro h
      omega

/-! Helper lemmas about the transition search. -/

lemma eligible_iff (as : Nat) (p : ParameterContainer) (t : Transition) :
    eligible as p t = true ↔
      t.dest ≠ as ∧ t.source = as ∧ p t.rule = some (Parameter.Rule true) := by
  unfold eligible
  by_cases hc : t.dest = as ∨ t.source ≠ as
  · rw [if_pos hc]
    simp only [Bool.false_eq_true, false_iff]
    rintro ⟨hd, hs, _⟩
    rcases hc with hc | hc
    · exact hd hc
    · exact hc hs
  · rw [if_neg hc]
    push_neg at hc
    rcases hc with ⟨hd, hs⟩
    cases hp : p t.rule with
    | none => simp [hd, hs, hp]
    | some param =>
      cases param with
      | Weight w => simp [hd, hs, hp]
      | Rule b => cases b <;> simp [hd, hs, hp]

lemma findEligibleFrom_some_of (as : Nat) (p : ParameterContainer) :
    ∀ (l : List Transition) (h0 i : Nat) (t : Transition),
      l[i]? = some t → eligible as p t = true →
      (∀ j tj, j < i → l[j]? = some tj → eligible as p tj = false) →
      findEligibleFrom as p h0 l = some (h0 + i, t) := by
  intro l
  induction l with
  | nil => intro h0 i t hget; simp at hget
  | cons a rest ih =>
    intro h0 i t hget helig hprior
    cases i with
    | zero =>
      simp at hget
      subst hget
      simp [findEligibleFrom, helig]
    | succ j =>
      have ha : eligible as p a = false :=
        hprior 0 a (Nat.succ_pos j) (by simp)
      simp only [findEligibleFrom, ha, Bool.false_eq_true, if_false]
      have key := ih (h0 + 1) j t (by simpa using hget) helig
        (fun k tk hk hkget => hprior (k + 1) tk (by omega) (by simpa using hkget))
      rw [show h0 + (j + 1) = h0 + 1 + j by omega]
      exact key

lemma findEligibleFrom_none_of (as : Nat) (p : ParameterContainer) :
    ∀ (l : List Transition) (h0 : Nat),
      (∀ t ∈ l, eligible as p t = false) →
      findEligibleFrom as p h0 l = none := by
  intro l
  induction l with
  | nil => intro h0 _; rfl
  | cons a rest ih =>
    intro h0 hall
    have ha := hall a (List.mem_cons_self a rest)
    simp only [findEligibleFrom, ha, Bool.false_eq_true, if_false]
    exact ih (h0 + 1) (fun t ht => hall t (List.mem_cons_of_mem a ht))

lemma findEligibleFrom_eligible (as : Nat) (p : ParameterContainer) :
    ∀ (l : List Transition) (h0 h : Nat) (t : Transition),
      findEligibleFrom as p h0 l = some (h, t) → eligible as p t = true := by
  intro l
  induction l with
  | nil => intro h0 h t hfind; simp [findEligibleFrom] at hfind
  | cons a rest ih =>
    intro h0 h t hfind
    by_cases ha : eligible as p a = true
    · simp only [findEligibleFrom, ha, if_true, Option.some.injEq,
        Prod.mk.injEq] at hfind
      rw [← hfind.2]
      exact ha
    · simp only [findEligibleFrom, ha, Bool.false_eq_true, if_false] at hfind
      exact ih (h0 + 1) h t hfind

lemma updateStates_active_transition (m : Machine) (a : AnimationContainer) :
    (m.updateStates a).active_transition = m.active_transition := rfl

/-- Claim C2: when a transition activates (no transition currently active, a
transition is found whose source equals the active state and whose rule
resolves to `Rule(true)`), the machine pushes `StateLeave(active_state)`
followed by `StateEnter(transition.source)` — the source state being left,
not the destination — and then sets the active state to the none handle and
the active transition to the found transition's handle. -/
theorem c2_activation_events (m : Machine) (h : Nat) (t : Transition)
    (hat : m.active_transition = 0)
    (hf : m.findEligible = some (h, t)) :
    t.source = m.active_state ∧ t.source ≠ t.dest
    ∧ m.findTransitionStep.events =
        (m.events.push (Event.StateLeave m.active_state)).push
          (Event.StateEnter t.source)
    ∧ m.findTransitionStep.active_state = 0
    ∧ m.findTransitionStep.active_transition = h
    ∧ m.searchIfIdle = m.findTransitionStep := by
  have helig := findEligibleFrom_eligible m.active_state m.parameters
    m.transitions 1 h t hf
  rw [eligible_iff] at helig
  obtain ⟨hd, hs, _⟩ := helig
  refine ⟨hs, fun he => hd (by rw [← he, hs]), ?_, ?_, ?_, ?_⟩
  · simp [Machine.findTransitionStep, Machine.findEligible] at hf ⊢
    rw [hf]
  · simp [Machine.findTransitionStep, Machine.findEligible] at hf ⊢
    rw [hf]
  · simp [Machine.findTransitionStep, Machine.findEligible] at hf ⊢
    rw [hf]
  · simp [Machine.searchIfIdle, hat]

/-- Witness for C2 on the Scenario A machine: the single Idle-to-Walk
transition activates, the two events reference state 1 (Idle) twice, the
active state becomes the none handle and the active transition handle 1. -/
theorem c2_activation_events_witness :
    (Transition.new ("Idle->Walk") 1 2 1 ("Go")).source = machineA.active_state
    ∧ (Transition.new ("Idle->Walk") 1 2 1 ("Go")).source ≠
        (Transition.new ("Idle->Walk") 1 2 1 ("Go")).dest
    ∧ machineA.findTransitionStep.events =
        (machineA.events.push (Event.StateLeave machineA.active_state)).push
          (Event.StateEnter (Transition.new ("Idle->Walk") 1 2 1 ("Go")).source)
    ∧ machineA.findTransitionStep.active_state = 0
    ∧ machineA.findTransitionStep.active_transition = 1
    ∧ machineA.searchIfIdle = machineA.findTransitionStep :=
  c2_activation_events machineA 1 (Transition.new ("Idle->Walk") 1 2 1 ("Go"))
    (by with_unfolding_all decide) (by with_unfolding_all decide)

/-- Machine used for the C3 order-stability witness: Scenario A plus a second,
equally eligible Idle-to-Walk transition added later. -/
def machineB : Machine :=
  machineA.add_transition (Transition.new ("Idle->Walk2") 1 2 1 ("Go"))

/-- Machine used for the C3 no-match witness: Scenario A with Rule("Go")
overwritten to false. -/
def machineNoGo : Machine :=
  machineA.set_parameter ("Go") (Parameter.Rule false)

/-- The Scenario A machine after one `evaluate_pose(dt=0.4)` call: its
transition is active. -/
def machineA1 : Machine := machineA.evaluatePose animsA (2/5)

/-- Claim C3: the transition search runs only when no transition is active
(with an active transition, `evaluate_pose` goes straight from the state
refresh to progression); it scans the transition pool in insertion order,
skips transitions whose source is not the active state or whose dest equals
the active state, and activates exactly the first remaining transition whose
rule parameter is `Rule(true)` — the transition at pool index `i` (handle
`i + 1`) activates when it is eligible and every earlier transition is not,
so of two eligible transitions the one added first wins; when no transition
is eligible the machine (in particular its active state) is unchanged. -/
theorem c3_search_first_match (m : Machine) (a : AnimationContainer) (dt : ℚ) :
    (m.active_transition ≠ 0 →
      m.evaluatePose a dt =
        (({ m with final_pose := AnimationPose.reset }).updateStates a).progress dt)
    ∧ (∀ i t, m.transitions[i]? = some t →
        eligible m.active_state m.parameters t = true →
        (∀ j tj, j < i → m.transitions[j]? = some tj →
          eligible m.active_state m.parameters tj = false) →
        m.findTransitionStep =
          { m with
            events := (m.events.push (Event.StateLeave m.active_state)).push
              (Event.StateEnter t.source),
            active_state := 0,
            active_transition := i + 1 })
    ∧ ((∀ t ∈ m.transitions, eligible m.active_state m.parameters t = false) →
        m.findTransitionStep = m) := by
  refine ⟨fun hat => ?_, fun i t hget helig hpri => ?_, fun hnone => ?_⟩
  · simp only [Machine.evaluatePose]
    rw [if_pos (Or.inr hat)]
    simp only [Machine.searchIfIdle]
    have hat2 :
        ¬ ((({ m with final_pose := AnimationPose.reset }).updateStates
            a).active_transition = 0) := hat
    rw [if_neg hat2]
  · have key := findEligibleFrom_some_of m.active_state m.parameters
      m.transitions 1 i t hget helig hpri
    rw [show 1 + i = i + 1 by omega] at key
    simp only [Machine.findTransitionStep, Machine.findEligible]
    rw [key]
  · have key := findEligibleFrom_none_of m.active_state m.parameters
      m.transitions 1 hnone
    simp only [Machine.findTransitionStep, Machine.findEligible]
    rw [key]

/-- Witness for C3: with an active transition the search is skipped; in
`machineB` (two eligible Idle-to-Walk transitions) the transition added first
(handle 1) activates; with Rule("Go") = false nothing activates and the
machine is unchanged. -/
theorem c3_search_first_match_witness :
    (machineA1.evaluatePose animsA (3/5) =
      (({ machineA1 with final_pose := AnimationPose.reset }).updateStates
        animsA).progress (3/5))
    ∧ machineB.findTransitionStep =
        { machineB with
          events := (machineB.events.push
            (Event.StateLeave machineB.active_state)).push
            (Event.StateEnter (Transition.new ("Idle->Walk") 1 2 1 ("Go")).source),
          active_state := 0,
          active_transition := 1 }
    ∧ machineNoGo.findTransitionStep = machineNoGo :=
  ⟨(c3_search_first_match machineA1 animsA (3/5)).1 (by with_unfolding_all decide),
   (c3_search_first_match machineB animsA 0).2.1 0
     (Transition.new ("Idle->Walk") 1 2 1 ("Go"))
     (by with_unfolding_all decide) (by with_unfolding_all decide)
     (fun j tj hj _ => absurd hj (Nat.not_lt_zero j)),
   (c3_search_first_match machineNoGo animsA 0).2.2
     (by with_unfolding_all decide)⟩

lemma blend_with_zero (p other : AnimationPose) :
    p.blend_with other 0 = p := by
  simp [AnimationPose.blend_with]

lemma foldl_blend_all_zero (params : ParameterContainer)
    (g : BlendPose → AnimationPose) :
    ∀ (ps : List BlendPose) (acc : AnimationPose),
      (∀ bp ∈ ps, resolveWeight params bp.weight = 0) →
      ps.foldl (fun acc bp =>
        acc.blend_with (g bp) (resolveWeight params bp.weight)) acc = acc := by
  intro ps
  induction ps with
  | nil => intro acc _; rfl
  | cons bp rest ih =>
    intro acc hall
    have hbp := hall bp (List.mem_cons_self bp rest)
    simp only [List.foldl_cons, hbp, blend_with_zero]
    exact ih acc (fun b hb => hall b (List.mem_cons_of_mem bp hb))

/-- The parameter table with every key unset. -/
def paramsEmpty : ParameterContainer := fun _ => none

/-- Scenario D node pool: two sampler nodes and a combiner (handle 3) whose
two children are weighted by the unset parameters "A" and "B". -/
def nodesD : List PoseNode :=
  [PoseNode.PlayAnimation 10, PoseNode.PlayAnimation 20,
   PoseNode.BlendAnimations
     [⟨PoseWeight.Parameter ("A"), 1⟩, ⟨PoseWeight.Parameter ("B"), 2⟩]]

/-- Claim C5: evaluating a combiner (`BlendAnimations`) node resets its output
accumulator and folds, for each `BlendPose` in list order, the evaluated child
pose at its resolved weight — a constant weight is used as-is, a parameter
weight resolves to the table value for `Weight(w)` and to `0.0` when the key
is missing or holds a non-Weight variant; when every child weight resolves to
`0.0` the result equals the reset (neutral) accumulator. -/
theorem c5_combiner (f : Nat) (nodes : List PoseNode)
    (params : ParameterContainer) (a : AnimationContainer) (h : Nat)
    (ps : List BlendPose)
    (hnode : getH nodes h = PoseNode.BlendAnimations ps) :
    evalNode a (f + 1) nodes params h =
      ps.foldl (fun acc bp =>
        acc.blend_with (evalNode a f nodes params bp.pose_source)
          (resolveWeight params bp.weight)) AnimationPose.reset
    ∧ (∀ c, resolveWeight params (PoseWeight.Constant c) = c)
    ∧ (∀ k w, params k = some (Parameter.Weight w) →
        resolveWeight params (PoseWeight.Parameter k) = w)
    ∧ (∀ k, params k = none →
        resolveWeight params (PoseWeight.Parameter k) = 0)
    ∧ (∀ k b, params k = some (Parameter.Rule b) →
        resolveWeight params (PoseWeight.Parameter k) = 0)
    ∧ ((∀ bp ∈ ps, resolveWeight params bp.weight = 0) →
        evalNode a (f + 1) nodes params h = AnimationPose.reset) := by
  have heq : evalNode a (f + 1) nodes params h =
      ps.foldl (fun acc bp =>
        acc.blend_with (evalNode a f nodes params bp.pose_source)
          (resolveWeight params bp.weight)) AnimationPose.reset := by
    simp only [evalNode, hnode]
  refine ⟨heq, fun c => rfl, fun k w hk => ?_, fun k hk => ?_,
    fun k b hk => ?_, fun hall => ?_⟩
  · simp [resolveWeight, hk]
  · simp [resolveWeight, hk]
  · simp [resolveWeight, hk]
  · rw [heq]
    exact foldl_blend_all_zero params _ ps AnimationPose.reset hall

/-- Witness for C5, Scenario D: the combiner with both child weights referring
to unset parameters evaluates to the neutral (reset) pose. -/
theorem c5_combiner_witness :
    evalNode animsA 2 nodesD paramsEmpty 3 = AnimationPose.reset :=
  (c5_combiner 1 nodesD paramsEmpty animsA 3
    [⟨PoseWeight.Parameter ("A"), 1⟩, ⟨PoseWeight.Parameter ("B"), 2⟩]
    (by with_unfolding_all decide)).2.2.2.2.2
    (by with_unfolding_all decide)

/-! Frame lemmas: which machine fields each evaluation phase can touch. -/

lemma findTransitionStep_states (m : Machine) :
    m.findTransitionStep.states = m.states := by
  unfold Machine.findTransitionStep
  cases hfe : m.findEligible with
  | none => rfl
  | some p => rcases p with ⟨h, t⟩; rfl

lemma findTransitionStep_transitions (m : Machine) :
    m.findTransitionStep.transitions = m.transitions := by
  unfold Machine.findTransitionStep
  cases hfe : m.findEligible with
  | none => rfl
  | some p => rcases p with ⟨h, t⟩; rfl

lemma searchIfIdle_states (m : Machine) :
    m.searchIfIdle.states = m.states := by
  unfold Machine.searchIfIdle
  split
  · exact findTransitionStep_states m
  · rfl

lemma searchIfIdle_transitions (m : Machine) :
    m.searchIfIdle.transitions = m.transitions := by
  unfold Machine.searchIfIdle
  split
  · exact findTransitionStep_transitions m
  · rfl

lemma progress_states (m : Machine) (dt : ℚ) :
    (m.progress dt).states = m.states := by
  unfold Machine.progress
  split
  · dsimp only
    split <;> rfl
  · rfl

/-- Machine reaching `evaluate_pose` with states present but neither an active
state nor an active transition (entry state explicitly set to the none
handle): the state-refresh loop is skipped. -/
def machineC7 : Machine :=
  let p1 := Machine.new.add_node (PoseNode.PlayAnimation 10)
  let p2 := p1.1.add_state (State.new ("S") p1.2)
  p2.1.set_entry_state 0

/-- Claim C7, counterexample: `evaluate_pose` does not refresh the cached
state poses when the machine has neither an active state nor an active
transition — on `machineC7` the single state keeps its stale default pose
instead of the value its root node evaluates to. -/
theorem c7_counterexample :
    ¬ ((machineC7.evaluatePose animsA 1).states =
       machineC7.states.map (fun s =>
         { s with pose := (evalNode animsA (machineC7.nodes.length + 1)
             machineC7.nodes machineC7.parameters s.root) })) := by
  with_unfolding_all decide

/-- Claim C7, amended: on every `evaluate_pose` call made while the machine
has an active state or an active transition, every state in the pool (not
only the active one) gets its cached pose recomputed by evaluating its root
pose-node, and this refresh happens before the transition search and
progression phases run; when both handles are none the whole body, including
the refresh, is skipped. -/
theorem c7_state_refresh (m : Machine) (a : AnimationContainer) (dt : ℚ)
    (hgate : m.active_state ≠ 0 ∨ m.active_transition ≠ 0) :
    (m.evaluatePose a dt).states =
      m.states.map (fun s =>
        { s with pose := (evalNode a (m.nodes.length + 1) m.nodes
            m.parameters s.root) })
    ∧ m.evaluatePose a dt =
        ((({ m with final_pose := AnimationPose.reset }).updateStates
          a).searchIfIdle).progress dt := by
  have hstep : m.evaluatePose a dt =
      ((({ m with final_pose := AnimationPose.reset }).updateStates
        a).searchIfIdle).progress dt := by
    simp only [Machine.evaluatePose]
    rw [if_pos hgate]
  refine ⟨?_, hstep⟩
  rw [hstep, progress_states, searchIfIdle_states]
  rfl

/-- Witness for C7 on the Scenario A machine (which has an active state):
both conjuncts of the amended claim instantiated at `dt = 1`. -/
theorem c7_state_refresh_witness :
    (machineA.evaluatePose animsA 1).states =
      machineA.states.map (fun s =>
        { s with pose := (evalNode animsA (machineA.nodes.length + 1)
            machineA.nodes machineA.parameters s.root) })
    ∧ machineA.evaluatePose animsA 1 =
        ((({ machineA with final_pose := AnimationPose.reset }).updateStates
          animsA).searchIfIdle).progress 1 :=
  c7_state_refresh machineA animsA 1 (Or.inl (by with_unfolding_all decide))

/-- Claim C8: `reset()` is idempotent — resetting twice equals resetting
once, and the reset machine has `active_state = entry_state` with every
transition's elapsed time and blend factor zeroed. -/
theorem c8_reset_idempotent (m : Machine) :
    m.reset.reset = m.reset
    ∧ m.reset.active_state = m.entry_state
    ∧ (∀ t ∈ m.reset.transitions, t.elapsed_time = 0 ∧ t.blend_factor = 0) := by
  refine ⟨?_, rfl, ?_⟩
  · have hff : Transition.reset ∘ Transition.reset = Transition.reset :=
      funext fun t => rfl
    simp only [Machine.reset, List.map_map, hff]
  · intro t ht
    simp only [Machine.reset] at ht
    obtain ⟨t0, ht0, rfl⟩ := List.mem_map.1 ht
    exact ⟨rfl, rfl⟩

lemma getH_map_reset (l : List Transition) (h : Nat) :
    getH (l.map Transition.reset) h = (getH l h).reset := by
  unfold getH
  simp only [List.getD_eq_getElem?_getD, List.getElem?_map]
  cases l[h - 1]? with
  | none => rfl
  | some t => rfl

lemma progress_final_pose (m : Machine) (dt : ℚ)
    (hat : m.active_transition ≠ 0) :
    (m.progress dt).final_pose =
      (m.final_pose.blend_with
        (getH m.states (getH m.transitions m.active_transition).source).pose
        (1 - (getH m.transitions m.active_transition).blend_factor)).blend_with
        (getH m.states (getH m.transitions m.active_transition).dest).pose
        (getH m.transitions m.active_transition).blend_factor := by
  unfold Machine.progress
  rw [if_pos hat]
  dsimp only
  split <;> rfl

/-- Claim C9: `reset()` only zeroes the transitions' timers and restores the
active state; it leaves the active transition, the event queue, the parameter
table, the node and state pools (with their cached poses), the final pose and
every transition's name, time, source, dest and rule unchanged — and because
the active transition survives, the next `evaluate_pose` continues blending
that transition (from blend factor 0, weights 1 and 0) instead of resuming
from the entry state. -/
theorem c9_reset_frame (m : Machine) :
    m.reset.active_transition = m.active_transition
    ∧ m.reset.events = m.events
    ∧ m.reset.parameters = m.parameters
    ∧ m.reset.nodes = m.nodes
    ∧ m.reset.states = m.states
    ∧ m.reset.final_pose = m.final_pose
    ∧ m.reset.entry_state = m.entry_state
    ∧ m.reset.active_state = m.entry_state
    ∧ (∀ i : Nat,
        (m.reset.transitions[i]?).map (fun t =>
          (t.name, t.transition_time, t.source, t.dest, t.rule)) =
        (m.transitions[i]?).map (fun t =>
          (t.name, t.transition_time, t.source, t.dest, t.rule)))
    ∧ (∀ (a : AnimationContainer) (dt : ℚ), m.active_transition ≠ 0 →
        (m.reset.evaluatePose a dt).final_pose =
          (AnimationPose.reset.blend_with
            (getH (m.reset.evaluatePose a dt).states
              (getH m.transitions m.active_transition).source).pose 1).blend_with
            (getH (m.reset.evaluatePose a dt).states
              (getH m.transitions m.active_transition).dest).pose 0) := by
  refine ⟨rfl, rfl, rfl, rfl, rfl, rfl, rfl, rfl, fun i => ?_, fun a dt hat => ?_⟩
  · simp only [Machine.reset, List.getElem?_map, Option.map_map]
    cases m.transitions[i]? with
    | none => rfl
    | some t => rfl
  · have hat2 : m.reset.active_transition ≠ 0 := hat
    have hstep : m.reset.evaluatePose a dt =
        ((({ m.reset with final_pose := AnimationPose.reset }).updateStates
          a).searchIfIdle).progress dt := by
      simp only [Machine.evaluatePose]
      rw [if_pos (Or.inr hat2)]
    have hsk : (({ m.reset with final_pose := AnimationPose.reset
        }).updateStates a).searchIfIdle =
        ({ m.reset with final_pose := AnimationPose.reset }).updateStates a := by
      unfold Machine.searchIfIdle
      have hne : ¬ ((({ m.reset with final_pose := AnimationPose.reset
          }).updateStates a).active_transition = 0) := hat
      rw [if_neg hne]
    have hat3 : (({ m.reset with final_pose := AnimationPose.reset
        }).updateStates a).active_transition ≠ 0 := hat
    rw [hstep, hsk, progress_states, progress_final_pose _ dt hat3]
    have htr : getH (({ m.reset with final_pose := AnimationPose.reset
        }).updateStates a).transitions
        ((({ m.reset with final_pose := AnimationPose.reset }).updateStates
          a).active_transition) =
        (getH m.transitions m.active_transition).reset :=
      getH_map_reset m.transitions m.active_transition
    rw [htr]
    have hfp : (({ m.reset with final_pose := AnimationPose.reset
        }).updateStates a).final_pose = AnimationPose.reset := rfl
    rw [hfp]
    have hbf : (getH m.transitions m.active_transition).reset.blend_factor =
        0 := rfl
    rw [hbf, sub_zero]
    rfl

/-- Witness for C9 on the Scenario A machine mid-transition (`machineA1` has
active transition 1): after `reset()`, the next `evaluate_pose` still blends
the Idle-to-Walk transition, at blend factor 0. -/
theorem c9_reset_frame_witness :
    (machineA1.reset.evaluatePose animsA 1).final_pose =
      (AnimationPose.reset.blend_with
        (getH (machineA1.reset.evaluatePose animsA 1).states
          (getH machineA1.transitions machineA1.active_transition).source).pose
        1).blend_with
        (getH (machineA1.reset.evaluatePose animsA 1).states
          (getH machineA1.transitions machineA1.active_transition).dest).pose
        0 :=
  (c9_reset_frame machineA1).2.2.2.2.2.2.2.2.2 animsA 1
    (by with_unfolding_all decide)

/-- The timing invariant of one transition (spec section 3 and section 8). -/
abbrev TransitionTimingInv (t : Transition) : Prop :=
  0 ≤ t.elapsed_time ∧ t.elapsed_time ≤ t.transition_time
    ∧ t.blend_factor = t.elapsed_time / t.transition_time

/-- The timing invariant over every transition of a machine that has a
positive transition time. -/
abbrev MachineTimingInv (m : Machine) : Prop :=
  ∀ t ∈ m.transitions, 0 < t.transition_time → TransitionTimingInv t

lemma timingInv_update {t : Transition} {dt : ℚ} (h : TransitionTimingInv t)
    (hdt : 0 ≤ dt) : TransitionTimingInv (t.update dt) := by
  obtain ⟨h0, h1, _⟩ := h
  unfold Transition.update
  dsimp only
  split
  · exact ⟨le_trans h0 h1, le_refl _, rfl⟩
  · next hnot => exact ⟨add_nonneg h0 hdt, le_of_not_lt hnot, rfl⟩

lemma timingInv_reset {t : Transition} (hT : 0 ≤ t.transition_time) :
    TransitionTimingInv t.reset :=
  ⟨le_refl 0, hT, (zero_div _).symm⟩

lemma getH_mem_or_default {α : Type} [Inhabited α] (l : List α) (h : Nat) :
    getH l h ∈ l ∨ getH l h = default := by
  unfold getH
  rw [List.getD_eq_getElem?_getD]
  cases hx : l[h - 1]? with
  | none => right; rfl
  | some x => left; exact List.getElem?_mem hx

lemma mem_progress_transitions {M : Machine} {dt : ℚ} {t : Transition}
    (ht : t ∈ (M.progress dt).transitions) :
    t ∈ M.transitions
    ∨ t = (getH M.transitions M.active_transition).update dt
    ∨ t = ((getH M.transitions M.active_transition).update dt).reset := by
  unfold Machine.progress at ht
  by_cases hat : M.active_transition ≠ 0
  · rw [if_pos hat] at ht
    dsimp only at ht
    split at ht
    · rcases List.mem_or_eq_of_mem_set ht with h | h
      · exact Or.inl h
      · exact Or.inr (Or.inr h)
    · rcases List.mem_or_eq_of_mem_set ht with h | h
      · exact Or.inl h
      · exact Or.inr (Or.inl h)
  · rw [if_neg hat] at ht
    exact Or.inl ht

lemma machineInv_evaluatePose (m : Machine) (a : AnimationContainer) (dt : ℚ)
    (hm : MachineTimingInv m) (hdt : 0 ≤ dt) :
    MachineTimingInv (m.evaluatePose a dt) := by
  unfold Machine.evaluatePose
  dsimp only
  by_cases hg : m.active_state ≠ 0 ∨ m.active_transition ≠ 0
  · rw [if_pos hg]
    intro t ht hT
    rcases mem_progress_transitions ht with h1 | h2 | h3
    · rw [searchIfIdle_transitions] at h1
      exact hm t h1 hT
    · rw [searchIfIdle_transitions] at h2
      have htriv : ((({ m with final_pose := AnimationPose.reset
          }).updateStates a)).transitions = m.transitions := rfl
      rw [htriv] at h2
      rcases getH_mem_or_default m.transitions
        (((({ m with final_pose := AnimationPose.reset }).updateStates
          a).searchIfIdle)).active_transition with hmem | hdef
      · have hT0 : 0 < (getH m.transitions
            (((({ m with final_pose := AnimationPose.reset }).updateStates
              a).searchIfIdle)).active_transition).transition_time := by
          rw [h2] at hT
          exact hT
        rw [h2]
        exact timingInv_update (hm _ hmem hT0) hdt
      · rw [h2, hdef] at hT
        have hzero : (((default : Transition)).update dt).transition_time
            = 0 := rfl
        rw [hzero] at hT
        exact absurd hT (lt_irrefl 0)
    · rw [searchIfIdle_transitions] at h3
      have htriv : ((({ m with final_pose := AnimationPose.reset
          }).updateStates a)).transitions = m.transitions := rfl
      rw [htriv] at h3
      rcases getH_mem_or_default m.transitions
        (((({ m with final_pose := AnimationPose.reset }).updateStates
          a).searchIfIdle)).active_transition with hmem | hdef
      · have hT0 : 0 ≤ (getH m.transitions
            (((({ m with final_pose := AnimationPose.reset }).updateStates
              a).searchIfIdle)).active_transition).transition_time := by
          rw [h3] at hT
          exact le_of_lt hT
        rw [h3]
        exact timingInv_reset hT0
      · rw [h3, hdef] at hT
        have hzero : ((((default : Transition)).update dt).reset).transition_time
            = 0 := rfl
        rw [hzero] at hT
        exact absurd hT (lt_irrefl 0)
  · rw [if_neg hg]
    intro t ht hT
    exact hm t ht hT

/-- Claim C4: starting from any machine whose transitions satisfy the timing
invariant (as freshly constructed transitions do), after any sequence of
`evaluate_pose(dt)` calls with `dt >= 0`, every transition with a positive
transition time satisfies `0 <= elapsed_time <= transition_time` and
`blend_factor = elapsed_time / transition_time`. -/
theorem c4_timing_invariant (a : AnimationContainer) :
    ∀ (dts : List ℚ) (m : Machine), MachineTimingInv m →
      (∀ d ∈ dts, 0 ≤ d) →
      MachineTimingInv (dts.foldl (fun mm d => mm.evaluatePose a d) m) := by
  intro dts
  induction dts with
  | nil => intro m hm _; exact hm
  | cons d rest ih =>
    intro m hm hdts
    simp only [List.foldl_cons]
    exact ih (m.evaluatePose a d)
      (machineInv_evaluatePose m a d hm (hdts d (List.mem_cons_self d rest)))
      (fun d2 hd2 => hdts d2 (List.mem_cons_of_mem d hd2))

/-- Witness for C4: the Scenario A machine (one transition with time 1,
created by `Transition::new`, hence satisfying the invariant) keeps the
timing invariant across the two-call sequence `dt = 0.4, 0.6`. -/
theorem c4_timing_invariant_witness :
    MachineTimingInv ([(2 : ℚ)/5, 3/5].foldl
      (fun mm d => mm.evaluatePose animsA d) machineA) :=
  c4_timing_invariant animsA [(2 : ℚ)/5, 3/5] machineA
    (by with_unfolding_all decide) (by with_unfolding_all decide)
